import Mathlib

/-!
Shallow embedding of the empchart-io hierarchy core.

The definitions below are translated from:
- backend/src/utils/levelValidation.ts (level model)
- frontend/src/utils/levelValidation.utils.ts (frontend mirror)
- backend DAO layer (findById, getAncestors, getDirectReports, findCEO,
  updateManager, delete)
- backend/src/services/employeeService.ts (updateManager, deleteEmployee,
  getEmployeePath, getEmployeeStats, getCEO)

The persistent store is modelled as a list of employee records in creation
order; Sequelize point lookups become List.find?, the single-field
managerId update becomes a map over the list, and thrown errors become
Except.error carrying the thrown message. All functions are executable.
-/

namespace EmpChart

/-- The EmployeeLevel union type from the TypeScript sources:
L1 (officers) .. L5 (juniors). -/
inductive EmployeeLevel where
  | L1
  | L2
  | L3
  | L4
  | L5
deriving DecidableEq, Repr

open EmployeeLevel

/-- Printed form of a level, as produced by Object.keys on the
LEVEL_HIERARCHY record. -/
def levelName : EmployeeLevel → String
  | L1 => "L1"
  | L2 => "L2"
  | L3 => "L3"
  | L4 => "L4"
  | L5 => "L5"

/-- Key order of the LEVEL_HIERARCHY record literal (insertion order,
which is what Object.keys and Object.entries iterate in). -/
def allLevels : List EmployeeLevel := [L1, L2, L3, L4, L5]

namespace Backend

/-- backend levelValidation.ts: LEVEL_HIERARCHY. -/
def LEVEL_HIERARCHY : EmployeeLevel → Nat
  | L1 => 1
  | L2 => 2
  | L3 => 3
  | L4 => 4
  | L5 => 5

/-- backend levelValidation.ts: LEVEL_DESCRIPTIONS. -/
def LEVEL_DESCRIPTIONS : EmployeeLevel → String
  | L1 => "Officers (C-Suite)"
  | L2 => "Managers"
  | L3 => "Leads"
  | L4 => "Seniors"
  | L5 => "Juniors"

/-- backend levelValidation.ts: canManage. -/
def canManage (managerLevel employeeLevel : EmployeeLevel) : Bool :=
  LEVEL_HIERARCHY managerLevel < LEVEL_HIERARCHY employeeLevel

/-- backend levelValidation.ts: getValidManagerLevels. -/
def getValidManagerLevels (employeeLevel : EmployeeLevel) : List EmployeeLevel :=
  allLevels.filter (fun level => LEVEL_HIERARCHY level < LEVEL_HIERARCHY employeeLevel)

/-- backend levelValidation.ts: validateLevelHierarchy.  The TS function
returns an object with a `valid` flag and an optional `error` message;
modelled as a pair. -/
def validateLevelHierarchy (employeeLevel managerLevel : EmployeeLevel) :
    Bool × Option String :=
  if !canManage managerLevel employeeLevel then
    (false,
      some (LEVEL_DESCRIPTIONS managerLevel ++ " cannot manage " ++
        LEVEL_DESCRIPTIONS employeeLevel ++ ". Valid manager levels: " ++
        String.intercalate ", " ((getValidManagerLevels employeeLevel).map levelName)))
  else
    (true, none)

/-- backend levelValidation.ts: canDragAndDrop (lines 148-156). -/
def canDragAndDrop (userLevel employeeLevel : EmployeeLevel) : Bool :=
  if userLevel = employeeLevel then
    false
  else
    canManage userLevel employeeLevel

end Backend

namespace Frontend

/-- frontend levelValidation.utils.ts: LEVEL_HIERARCHY (identical record). -/
def LEVEL_HIERARCHY : EmployeeLevel → Nat
  | L1 => 1
  | L2 => 2
  | L3 => 3
  | L4 => 4
  | L5 => 5

/-- frontend levelValidation.utils.ts: canManage. -/
def canManage (managerLevel employeeLevel : EmployeeLevel) : Bool :=
  LEVEL_HIERARCHY managerLevel < LEVEL_HIERARCHY employeeLevel

/-- frontend levelValidation.utils.ts: canDragAndDrop (lines 49-58).
L1 and L2 get a privileged branch; inside it only the (L1, L1) pair is
refused. -/
def canDragAndDrop (userLevel employeeLevel : EmployeeLevel) : Bool :=
  if userLevel = L1 ∨ userLevel = L2 then
    if userLevel = L1 ∧ employeeLevel = L1 then
      false
    else
      true
  else
    LEVEL_HIERARCHY userLevel < LEVEL_HIERARCHY employeeLevel

end Frontend

/-- A department row joined onto a designation. -/
structure Department where
  code : String
  name : String
deriving DecidableEq, Repr

/-- A designation row; `department` is the joined association, which the
service code treats as possibly absent. -/
structure Designation where
  title : String
  level : EmployeeLevel
  department : Option Department
deriving DecidableEq, Repr

/-- An employee record as returned by the DAO (with the designation and
department joins resolved).  `hireDate` and `createdAt` are modelled as
natural timestamps; the list order of the store is creation order. -/
structure Employee where
  id : Nat
  name : String
  designation : Option Designation
  managerId : Option Nat
  status : String
  hireDate : Nat
  createdAt : Nat
deriving DecidableEq, Repr

/-- The employees table, in creation order. -/
abbrev Store := List Employee

/-- DAO findById / Sequelize findByPk: point lookup by primary key. -/
def findById (s : Store) (id : Nat) : Option Employee :=
  List.find? (fun e => e.id = id) s

/-- DAO getDirectReports: Employee.findAll({ where: { managerId } }). -/
def getDirectReports (s : Store) (managerId : Nat) : List Employee :=
  List.filter (fun e => e.managerId = some managerId) s

/-- DAO updateManager: Employee.update({ managerId }, { where: { id } }) —
the raw single-field mutation, no validation. -/
def setManagerField (s : Store) (id : Nat) (managerId : Option Nat) : Store :=
  List.map (fun e => if e.id = id then { e with managerId := managerId } else e) s

/-- DAO delete: Employee.destroy({ where: { id } }). -/
def destroyById (s : Store) (id : Nat) : Store :=
  List.filter (fun e => e.id ≠ id) s

/-- Loop body of DAO getAncestors.  `fuel` counts the remaining
iterations allowed by `depth < MAX_DEPTH`; `acc` holds the ancestors
pushed so far, most recent first.  The JS guard `!employee.managerId`
is falsy both for null and for the id 0, so both end the walk. -/
def getAncestorsAux (s : Store) : Nat → Nat → List Nat → List Nat
  | 0, _, acc => acc.reverse
  | fuel + 1, currentId, acc =>
    match findById s currentId with
    | none => acc.reverse
    | some e =>
      match e.managerId with
      | none => acc.reverse
      | some m =>
        if m = 0 then acc.reverse
        else getAncestorsAux s fuel m (m :: acc)

/-- DAO getAncestors (employeeController.ts lines 618-639): walk
managerId links upward, MAX_DEPTH = 20. -/
def getAncestors (s : Store) (employeeId : Nat) : List Nat :=
  getAncestorsAux s 20 employeeId []

/-- Designation filter used by DAO findCEO: title must be
"Chief Executive Officer" and the joined department code "EXECUTIVE". -/
def isCEODesignation (e : Employee) : Bool :=
  match e.designation with
  | none => false
  | some d =>
    match d.department with
    | none => false
    | some dep => d.title = "Chief Executive Officer" && dep.code = "EXECUTIVE"

/-- ORDER BY hireDate ASC, createdAt ASC: the left record sorts no later
than the right one. -/
def hiredNoLaterThan (a b : Employee) : Bool :=
  a.hireDate < b.hireDate || (a.hireDate = b.hireDate && a.createdAt ≤ b.createdAt)

/-- DAO findCEO (employeeController.ts lines 711-735): findOne over the
CEO-designation filter ordered by hireDate then createdAt — i.e. the
earliest matching record.  Note: it does NOT consult managerId. -/
def findCEO (s : Store) : Option Employee :=
  List.foldl
    (fun best e =>
      match best with
      | none => some e
      | some b => if hiredNoLaterThan b e then some b else some e)
    none
    (List.filter isCEODesignation s)

/-- employeeService.getCEO (lines 217-219): delegates to the DAO. -/
def getCEO (s : Store) : Option Employee :=
  findCEO s

/-- employeeService.updateManager (lines 318-384), the reassignment
engine for drag and drop.  Thrown errors become Except.error with the
thrown message; the success value is the mutated store.  The checks
appear in source order: employee lookup, employee designation and
department presence, the root guard, then (only when a manager is being
set) manager lookup, manager designation and department presence,
department equality, self-assignment, and the ancestor cycle test.
The JS numeric-validity guard (typeof and NaN) on the manager id is
vacuous in the Nat model and therefore omitted. -/
def updateManager (s : Store) (employeeId : Nat) (managerId : Option Nat) :
    Except String Store :=
  match findById s employeeId with
  | none => Except.error "Employee not found"
  | some employee =>
    match employee.designation with
    | none => Except.error "Employee designation or department not found"
    | some desig =>
      match desig.department with
      | none => Except.error "Employee designation or department not found"
      | some empDept =>
        if employee.managerId = none ∧ managerId ≠ none then
          Except.error "Cannot assign a manager to CEO"
        else
          match managerId with
          | none => Except.ok (setManagerField s employeeId none)
          | some mId =>
            match findById s mId with
            | none => Except.error "Manager not found"
            | some newManager =>
              match newManager.designation with
              | none => Except.error "Manager designation or department not found"
              | some mDesig =>
                match mDesig.department with
                | none => Except.error "Manager designation or department not found"
                | some mgrDept =>
                  if empDept.code ≠ mgrDept.code then
                    Except.error
                      ("Cannot assign manager from different department. Employee is "
                        ++ empDept.code ++ ", manager is " ++ mgrDept.code)
                  else if mId = employeeId then
                    Except.error "Employee cannot be their own manager"
                  else if employeeId ∈ getAncestors s mId then
                    Except.error "This would create a circular reporting structure"
                  else
                    Except.ok (setManagerField s employeeId (some mId))

/-- employeeService.deleteEmployee (lines 160-179). -/
def deleteEmployee (s : Store) (id : Nat) : Except String Store :=
  match findById s id with
  | none => Except.error "Employee not found"
  | some _ =>
    if getDirectReports s id ≠ [] then
      Except.error
        "Cannot delete employee with direct reports. Please reassign or remove direct reports first."
    else
      Except.ok (destroyById s id)

/-- One breadcrumb entry of the employee path (employeeService
lines 297-303). -/
structure EmployeePath where
  id : Nat
  name : String
  designation : String
  level : EmployeeLevel
  department : String
deriving DecidableEq, Repr

/-- The entry unshifted for one visited employee, with the same
fallbacks as the source (title "Unknown", level "L5", department code
"UNKNOWN"). -/
def pathEntry (e : Employee) : EmployeePath :=
  { id := e.id
    name := e.name
    designation := (e.designation.map Designation.title).getD "Unknown"
    level := (e.designation.map Designation.level).getD EmployeeLevel.L5
    department :=
      ((e.designation.bind Designation.department).map Department.code).getD "UNKNOWN" }

/-- The while loop of employeeService.getEmployeePath.  The TS loop has
no depth ceiling, so the embedding carries explicit fuel; `none` marks
fuel exhaustion, which on the acyclic stores the claims quantify over
never happens.  Each iteration unshifts the entry for the current
employee, stops when managerId is strictly null, and otherwise follows
the link — ending the loop when the lookup misses. -/
def getEmployeePathAux (s : Store) : Nat → Employee → List EmployeePath →
    Option (List EmployeePath)
  | 0, _, _ => none
  | fuel + 1, current, path =>
    let path' := pathEntry current :: path
    match current.managerId with
    | none => some path'
    | some m =>
      match findById s m with
      | none => some path'
      | some mgr => getEmployeePathAux s fuel mgr path'

/-- employeeService.getEmployeePath (lines 287-313): breadcrumb from
the root down to the employee.  `none` is the thrown "Employee not
found" (or, in the model, exhausted fuel). -/
def getEmployeePath (s : Store) (fuel : Nat) (employeeId : Nat) :
    Option (List EmployeePath) :=
  match findById s employeeId with
  | none => none
  | some e => getEmployeePathAux s fuel e []

/-- Insertion-ordered string-keyed counter map, modelling a plain JS
object used as { [key: string]: number }.  Bumping an absent key
appends it with count 1; keys are unique by construction. -/
def bump : List (String × Nat) → String → List (String × Nat)
  | [], k => [(k, 1)]
  | (k', v) :: rest, k =>
    if k' = k then (k', v + 1) :: rest else (k', v) :: bump rest k

/-- The stats accumulator of employeeService.getEmployeeStats. -/
structure Stats where
  total : Nat
  byDepartment : List (String × Nat)
  byLevel : List (String × Nat)
  active : Nat
  inactive : Nat
deriving DecidableEq, Repr

/-- The forEach body of getEmployeeStats: department counted only when
the designation and its department resolve, level counted only when
the designation resolves, and any status other than "active" counted
as inactive. -/
def statsStep (st : Stats) (e : Employee) : Stats :=
  let st :=
    match e.designation with
    | some d =>
      match d.department with
      | some dep => { st with byDepartment := bump st.byDepartment dep.code }
      | none => st
    | none => st
  let st :=
    match e.designation with
    | some d => { st with byLevel := bump st.byLevel (levelName d.level) }
    | none => st
  if e.status = "active" then
    { st with active := st.active + 1 }
  else
    { st with inactive := st.inactive + 1 }

/-- employeeService.getEmployeeStats (lines 389-428). -/
def getEmployeeStats (s : Store) : Stats :=
  List.foldl statsStep
    { total := s.length, byDepartment := [], byLevel := [], active := 0, inactive := 0 }
    s

/-- Sum of the counts of a string-keyed counter map. -/
def sumCounts (m : List (String × Nat)) : Nat :=
  List.foldr (fun p acc => p.2 + acc) 0 m

/-- A core mutation of the hierarchy: a reassignment request or a
deletion request.  Reads do not change the store and need no
constructor. -/
inductive CoreOp where
  | reassign (employeeId : Nat) (managerId : Option Nat)
  | delete (employeeId : Nat)
deriving DecidableEq, Repr

/-- Run one core operation: on a validation error the service throws
before any DAO write, so the store is unchanged. -/
def applyOp (s : Store) : CoreOp → Store
  | CoreOp.reassign eId mId =>
    match updateManager s eId mId with
    | Except.ok s' => s'
    | Except.error _ => s
  | CoreOp.delete eId =>
    match deleteEmployee s eId with
    | Except.ok s' => s'
    | Except.error _ => s

/-- Run a sequence of core operations. -/
def applyOps (s : Store) (ops : List CoreOp) : Store :=
  List.foldl applyOp s ops

/-- The department code reachable from an employee record, when both
the designation and its department resolve. -/
def deptCode (e : Employee) : Option String :=
  (e.designation.bind Designation.department).map Department.code

section Fixtures

/-- Technology department fixture. -/
def dTech : Department := { code := "TECH", name := "Technology" }

/-- Executive department fixture. -/
def dExec : Department := { code := "EXECUTIVE", name := "Executive" }

/-- Compact employee builder for concrete test stores. -/
def mkEmp (id : Nat) (title : String) (lvl : EmployeeLevel) (dept : Department)
    (mgr : Option Nat) : Employee :=
  { id := id
    name := "E" ++ toString id
    designation := some { title := title, level := lvl, department := some dept }
    managerId := mgr
    status := "active"
    hireDate := id
    createdAt := id }

/-- Three employees in one department: the root 1 (L1) and two reports
2 (L2) and 3 (L3) of the root. -/
def levelGapStore : Store :=
  [mkEmp 1 "Head of Technology" EmployeeLevel.L1 dTech none,
   mkEmp 2 "Engineering Manager" EmployeeLevel.L2 dTech (some 1),
   mkEmp 3 "Tech Lead" EmployeeLevel.L3 dTech (some 1)]

/-- A four-link management chain 4 → 3 → 2 → 1, all in one department. -/
def chainStore : Store :=
  [mkEmp 1 "Chief of Staff" EmployeeLevel.L1 dTech none,
   mkEmp 2 "Director" EmployeeLevel.L2 dTech (some 1),
   mkEmp 3 "Team Lead" EmployeeLevel.L3 dTech (some 2),
   mkEmp 4 "Senior Engineer" EmployeeLevel.L4 dTech (some 3)]

/-- A single employee with no manager whose designation title is not
"Chief Executive Officer". -/
def founderStore : Store :=
  [mkEmp 1 "Founder" EmployeeLevel.L1 dExec none]

/-- A 22-deep management chain 22 → 21 → ... → 1: deeper than the
MAX_DEPTH = 20 ceiling of getAncestors. -/
def deepStore : Store :=
  (List.range 22).map
    (fun i => mkEmp (i + 1) "Associate" EmployeeLevel.L5 dTech
      (if i = 0 then none else some i))

/-- An (erroneous) two-node cycle 1 → 2 → 1 in the manager graph. -/
def cyclicStore : Store :=
  [mkEmp 1 "Associate" EmployeeLevel.L5 dTech (some 2),
   mkEmp 2 "Associate" EmployeeLevel.L5 dTech (some 1)]

end Fixtures

/-- `isChainUpTo s id L` holds when L is the full manager chain of the
employee `id`: L lists the manager ids walking upward, each link
resolving in the store, the last one being the root (null managerId),
and no link using the JS-falsy id 0.  This is the defining property of
a well-formed acyclic ancestor chain. -/
def isChainUpTo (s : Store) : Nat → List Nat → Bool
  | id, [] =>
    match findById s id with
    | some e => e.managerId = none
    | none => false
  | id, m :: rest =>
    match findById s id with
    | some e => e.managerId = some m && m ≠ 0 && isChainUpTo s m rest
    | none => false

/-! ## Theorems -/

/-- C1: the spec says a reassignment to a manager whose rank is not
strictly above the employee must be rejected with LevelViolation and a
message naming the valid manager levels, and the repository ships
validateLevelHierarchy producing exactly that message — but
updateManager never invokes any level check.  At the failing input
(employee 2 at L2, proposed manager 3 at L3, same department), the
manager does not outrank the employee, yet the engine accepts the
request and mutates the manager reference. -/
theorem updateManager_accepts_level_violation :
    Backend.canManage EmployeeLevel.L3 EmployeeLevel.L2 = false
    ∧ (Backend.validateLevelHierarchy EmployeeLevel.L2 EmployeeLevel.L3).2 =
        some "Leads cannot manage Managers. Valid manager levels: L1"
    ∧ updateManager levelGapStore 2 (some 3) =
        Except.ok (setManagerField levelGapStore 2 (some 3))
    ∧ (findById (setManagerField levelGapStore 2 (some 3)) 2).map Employee.managerId =
        some (some 3) := by
  refine ⟨rfl, rfl, rfl, rfl⟩

/-- C2 counterexample: employee 2 is not the root (its managerId is 1),
yet reassign(2, null) is accepted and sets its managerId to null — the
claim says it must be rejected with InvalidTransition and leave the
manager reference unchanged. -/
theorem updateManager_null_orphans_nonroot :
    (findById levelGapStore 2).map Employee.managerId = some (some 1)
    ∧ updateManager levelGapStore 2 none =
        Except.ok (setManagerField levelGapStore 2 none)
    ∧ (findById (setManagerField levelGapStore 2 none) 2).map Employee.managerId =
        some (none : Option Nat) := by
  refine ⟨rfl, rfl, rfl⟩

/-- C2 amended: giving the root a manager is rejected with the CEO
error, and a null newManagerId is accepted for every employee whose
designation and department resolve — a no-op for the root, but for a
non-root it orphans the employee (managerId becomes null); the engine
does not reject orphaning. -/
theorem updateManager_null_and_root_cases (s : Store) (eId : Nat) (e : Employee)
    (he : findById s eId = some e) (c : String) (hc : deptCode e = some c) :
    (e.managerId = none →
      ∀ mId : Nat, updateManager s eId (some mId) =
        Except.error "Cannot assign a manager to CEO")
    ∧ updateManager s eId none = Except.ok (setManagerField s eId none) := by
  obtain ⟨d, hd⟩ : ∃ d, e.designation = some d := by
    cases hdes : e.designation with
    | none => simp [deptCode, hdes] at hc
    | some d => exact ⟨d, rfl⟩
  obtain ⟨dep, hdep⟩ : ∃ dep, d.department = some dep := by
    cases hdepm : d.department with
    | none => simp [deptCode, hd, hdepm] at hc
    | some dep => exact ⟨dep, rfl⟩
  constructor
  · intro hroot mId
    simp [updateManager, he, hd, hdep, hroot]
  · simp [updateManager, he, hd, hdep]

/-- C2 amended, witness: in the concrete store, reassign(root, 2) is
rejected with the CEO error and reassign(root, null) is accepted as a
no-op. -/
theorem updateManager_null_and_root_cases_witness :
    updateManager levelGapStore 1 (some 2) =
      Except.error "Cannot assign a manager to CEO"
    ∧ updateManager levelGapStore 1 none =
      Except.ok (setManagerField levelGapStore 1 none) :=
  ⟨(updateManager_null_and_root_cases levelGapStore 1
      (mkEmp 1 "Head of Technology" EmployeeLevel.L1 dTech none) rfl "TECH" rfl).1
      rfl 2,
   (updateManager_null_and_root_cases levelGapStore 1
      (mkEmp 1 "Head of Technology" EmployeeLevel.L1 dTech none) rfl "TECH" rfl).2⟩

/-- C3: the spec (and the doc comment on getCEO, "employee with no
manager") says the root lookup returns the unique employee with null
managerId — but findCEO selects by designation title and department
instead.  At the failing input the store has exactly one employee with
null managerId (titled "Founder"), and the lookup reports not-found. -/
theorem findCEO_ignores_managerId :
    List.countP (fun e => e.managerId == none) founderStore = 1
    ∧ findCEO founderStore = none
    ∧ getCEO founderStore = none := by
  refine ⟨rfl, rfl, rfl⟩

/-- C9 counterexample: at the pair (userLevel = L2, employeeLevel = L1)
the backend canDragAndDrop returns false while the frontend
canDragAndDrop returns true, so the two functions are not
extensionally equal. -/
theorem canDragAndDrop_mismatch :
    Backend.canDragAndDrop EmployeeLevel.L2 EmployeeLevel.L1 = false
    ∧ Frontend.canDragAndDrop EmployeeLevel.L2 EmployeeLevel.L1 = true := by
  refine ⟨rfl, rfl⟩

/-- C9 amended: the frontend canDragAndDrop agrees with the backend one
everywhere except when the user is L2 and the employee is L1 or L2,
where the frontend privileged-tier branch returns true and the backend
strict rule returns false. -/
theorem canDragAndDrop_agree_except_L2 (u e : EmployeeLevel) :
    Frontend.canDragAndDrop u e =
      (Backend.canDragAndDrop u e ||
        (decide (u = EmployeeLevel.L2) &&
          (decide (e = EmployeeLevel.L1) || decide (e = EmployeeLevel.L2)))) := by
  cases u <;> cases e <;> rfl

/-- C7: deleting a missing id reports NotFound, and deleting an
employee that has at least one direct report reports the
HasDirectReports error while leaving the store — and hence the
employee — untouched. -/
theorem deleteEmployee_guard (s : Store) (i : Nat) :
    (findById s i = none → deleteEmployee s i = Except.error "Employee not found")
    ∧ (∀ e, findById s i = some e → getDirectReports s i ≠ [] →
        deleteEmployee s i =
          Except.error
            "Cannot delete employee with direct reports. Please reassign or remove direct reports first."
        ∧ applyOp s (CoreOp.delete i) = s) := by
  constructor
  · intro h
    simp [deleteEmployee, h]
  · intro e he hrep
    refine ⟨by simp [deleteEmployee, he, hrep], ?_⟩
    simp [applyOp, deleteEmployee, he, hrep]

/-- The ancestor walk never returns more entries than the accumulator
plus the remaining fuel. -/
theorem getAncestorsAux_length_le (s : Store) :
    ∀ (fuel id : Nat) (acc : List Nat),
      (getAncestorsAux s fuel id acc).length ≤ acc.length + fuel := by
  intro fuel
  induction fuel with
  | zero =>
    intro id acc
    simp [getAncestorsAux]
  | succ f ih =>
    intro id acc
    unfold getAncestorsAux
    split
    · simp only [List.length_reverse]
      omega
    · split
      · simp only [List.length_reverse]
        omega
      · split
        · simp only [List.length_reverse]
          omega
        · rename_i e hfind m hmgr h0
          have h := ih m (m :: acc)
          simp only [List.length_cons] at h
          omega

/-- On a full manager chain that fits in the fuel, the ancestor walk
returns the accumulator followed by exactly that chain. -/
theorem getAncestorsAux_of_chain (s : Store) :
    ∀ (L : List Nat) (id fuel : Nat) (acc : List Nat),
      isChainUpTo s id L = true → L.length ≤ fuel →
      getAncestorsAux s fuel id acc = acc.reverse ++ L := by
  intro L
  induction L with
  | nil =>
    intro id fuel acc hc _
    cases hf : findById s id with
    | none => simp [isChainUpTo, hf] at hc
    | some e =>
      have hm : e.managerId = none := by
        simpa [isChainUpTo, hf] using hc
      cases fuel with
      | zero => simp [getAncestorsAux]
      | succ f => simp [getAncestorsAux, hf, hm]
  | cons m rest ih =>
    intro id fuel acc hc hlen
    cases hf : findById s id with
    | none => simp [isChainUpTo, hf] at hc
    | some e =>
      simp only [isChainUpTo, hf, Bool.and_eq_true, decide_eq_true_eq] at hc
      obtain ⟨⟨hm, h0⟩, hrest⟩ := hc
      cases fuel with
      | zero => simp at hlen
      | succ f =>
        have hlen' : rest.length ≤ f := by
          simpa using hlen
        have hrec := ih m f (m :: acc) hrest hlen'
        simp [getAncestorsAux, hf, hm, h0, hrec]

/-- On a full manager chain of at most 20 links the 20-hop walk returns
the whole chain. -/
theorem getAncestors_eq_of_chain (s : Store) (id : Nat) (L : List Nat)
    (hc : isChainUpTo s id L = true) (hlen : L.length ≤ 20) :
    getAncestors s id = L := by
  simpa [getAncestors] using getAncestorsAux_of_chain s L id 20 [] hc hlen

/-- C5: getAncestors is total with a hard output bound of 20 hops on
every input — cyclic stores included — and on an acyclic state whose
full manager chain L has at most 20 links it returns exactly that
ordered chain, from the immediate manager up to the root. -/
theorem getAncestors_bounded_and_complete (s : Store) (id : Nat) (L : List Nat)
    (hc : isChainUpTo s id L = true) (hlen : L.length ≤ 20) :
    (∀ (s2 : Store) (i2 : Nat), (getAncestors s2 i2).length ≤ 20)
    ∧ getAncestors s id = L := by
  refine ⟨fun s2 i2 => ?_, getAncestors_eq_of_chain s id L hc hlen⟩
  simpa [getAncestors] using getAncestorsAux_length_le s2 20 i2 []

/-- C5 witness: the chain store satisfies the chain hypothesis for
employee 4 with chain [3, 2, 1], the walk returns it, and even on the
cyclic store the walk stops within 20 entries. -/
theorem getAncestors_bounded_and_complete_witness :
    isChainUpTo chainStore 4 [3, 2, 1] = true
    ∧ getAncestors chainStore 4 = [3, 2, 1]
    ∧ (getAncestors cyclicStore 1).length ≤ 20 :=
  ⟨by decide,
   (getAncestors_bounded_and_complete chainStore 4 [3, 2, 1] (by decide) (by decide)).2,
   (getAncestors_bounded_and_complete chainStore 4 [3, 2, 1] (by decide) (by decide)).1
     cyclicStore 1⟩

/-- C6 counterexample: in the chain A = 1 → B = 2 → C = 3, A is the
root; A appears in ancestorsOf(C), yet reassign(A, C) is rejected by
the earlier root guard with the CEO message, not with the
CircularReference message the claim requires. -/
theorem updateManager_root_shadows_cycle :
    1 ∈ getAncestors chainStore 3
    ∧ updateManager chainStore 1 (some 3) =
        Except.error "Cannot assign a manager to CEO" := by
  refine ⟨by decide, rfl⟩

/-- C6 amended: when the employee appears among the proposed manager's
ancestors and the checks that precede the cycle test pass — the
employee is not the root, both designations and departments resolve to
the same department code, and the ids differ — the engine returns the
CircularReference error and the store is unchanged. -/
theorem updateManager_circular_guard (s : Store) (eId mId : Nat) (e m : Employee)
    (he : findById s eId = some e) (hroot : e.managerId ≠ none)
    (hm : findById s mId = some m) (c : String)
    (hec : deptCode e = some c) (hmc : deptCode m = some c)
    (hne : mId ≠ eId) (hcyc : eId ∈ getAncestors s mId) :
    updateManager s eId (some mId) =
      Except.error "This would create a circular reporting structure"
    ∧ applyOp s (CoreOp.reassign eId (some mId)) = s := by
  obtain ⟨d, hd⟩ : ∃ d, e.designation = some d := by
    cases hdes : e.designation with
    | none => simp [deptCode, hdes] at hec
    | some d => exact ⟨d, rfl⟩
  obtain ⟨dep, hdep, hdepc⟩ : ∃ dep, d.department = some dep ∧ dep.code = c := by
    cases hdepm : d.department with
    | none => simp [deptCode, hd, hdepm] at hec
    | some dep =>
      refine ⟨dep, rfl, ?_⟩
      simpa [deptCode, hd, hdepm] using hec
  obtain ⟨md, hmd⟩ : ∃ md, m.designation = some md := by
    cases hdes : m.designation with
    | none => simp [deptCode, hdes] at hmc
    | some md => exact ⟨md, rfl⟩
  obtain ⟨mdep, hmdep, hmdepc⟩ : ∃ mdep, md.department = some mdep ∧ mdep.code = c := by
    cases hdepm : md.department with
    | none => simp [deptCode, hmd, hdepm] at hmc
    | some mdep =>
      refine ⟨mdep, rfl, ?_⟩
      simpa [deptCode, hmd, hdepm] using hmc
  have herr : updateManager s eId (some mId) =
      Except.error "This would create a circular reporting structure" := by
    simp [updateManager, he, hd, hdep, hroot, hm, hmd, hmdep, hdepc, hmdepc, hne, hcyc]
  exact ⟨herr, by simp [applyOp, herr]⟩

/-- C6 amended, witness: reassigning employee 2 under its transitive
report 4 in the chain store is rejected as circular and changes
nothing. -/
theorem updateManager_circular_guard_witness :
    updateManager chainStore 2 (some 4) =
      Except.error "This would create a circular reporting structure"
    ∧ applyOp chainStore (CoreOp.reassign 2 (some 4)) = chainStore :=
  updateManager_circular_guard chainStore 2 4
    (mkEmp 2 "Director" EmployeeLevel.L2 dTech (some 1))
    (mkEmp 4 "Senior Engineer" EmployeeLevel.L4 dTech (some 3))
    rfl (by decide) rfl "TECH" rfl rfl (by decide) (by decide)

/-- C7 witness: in the chain store, deleting the absent id 99 reports
NotFound, and deleting employee 1 (who has a direct report) reports the
direct-reports error and changes nothing. -/
theorem deleteEmployee_guard_witness :
    deleteEmployee chainStore 99 = Except.error "Employee not found"
    ∧ deleteEmployee chainStore 1 =
        Except.error
          "Cannot delete employee with direct reports. Please reassign or remove direct reports first."
    ∧ applyOp chainStore (CoreOp.delete 1) = chainStore :=
  ⟨(deleteEmployee_guard chainStore 99).1 rfl,
   ((deleteEmployee_guard chainStore 1).2
      (mkEmp 1 "Chief of Staff" EmployeeLevel.L1 dTech none) rfl (by decide)).1,
   ((deleteEmployee_guard chainStore 1).2
      (mkEmp 1 "Chief of Staff" EmployeeLevel.L1 dTech none) rfl (by decide)).2⟩

/-- A successful point lookup returns a record carrying the looked-up
id. -/
theorem findById_id {s : Store} {i : Nat} {e : Employee}
    (h : findById s i = some e) : e.id = i := by
  unfold findById at h
  simpa using List.find?_some h

/-- On a full manager chain that fits strictly below the fuel, the
breadcrumb loop succeeds and visits exactly the chain, unshifting each
entry: the resulting ids are the start id and chain reversed, in front
of the accumulator. -/
theorem getEmployeePathAux_of_chain (s : Store) :
    ∀ (L : List Nat) (id : Nat) (e : Employee) (fuel : Nat) (acc : List EmployeePath),
      isChainUpTo s id L = true → findById s id = some e → L.length < fuel →
      ∃ p, getEmployeePathAux s fuel e acc = some p
        ∧ p.map EmployeePath.id = (id :: L).reverse ++ acc.map EmployeePath.id := by
  intro L
  induction L with
  | nil =>
    intro id e fuel acc hc hf hlen
    have hm : e.managerId = none := by
      simpa [isChainUpTo, hf] using hc
    cases fuel with
    | zero => simp at hlen
    | succ f =>
      refine ⟨pathEntry e :: acc, by simp [getEmployeePathAux, hm], ?_⟩
      have hid : e.id = id := findById_id hf
      simp [pathEntry, hid]
  | cons m rest ih =>
    intro id e fuel acc hc hf hlen
    simp only [isChainUpTo, hf, Bool.and_eq_true, decide_eq_true_eq] at hc
    obtain ⟨⟨hm, h0⟩, hrest⟩ := hc
    obtain ⟨mgr, hfm⟩ : ∃ mgr, findById s m = some mgr := by
      cases hfm : findById s m with
      | none => cases rest <;> simp [isChainUpTo, hfm] at hrest
      | some mgr => exact ⟨mgr, rfl⟩
    cases fuel with
    | zero => simp at hlen
    | succ f =>
      have hlen' : rest.length < f := by
        simp only [List.length_cons] at hlen
        omega
      obtain ⟨p, hp, hmap⟩ := ih m mgr f (pathEntry e :: acc) hrest hfm hlen'
      refine ⟨p, by simp [getEmployeePathAux, hm, hfm, hp], ?_⟩
      have hid : e.id = id := findById_id hf
      rw [hmap]
      simp [pathEntry, hid]

/-- C8 amended: for an existing employee whose full manager chain L has
at most 20 links (and with enough fuel for the unbounded source loop),
the breadcrumb path succeeds and its ids are exactly
ancestorsOf(e) reversed with e appended — so the root comes first and
the employee last. -/
theorem getEmployeePath_matches_ancestors (s : Store) (eId : Nat) (e : Employee)
    (L : List Nat) (fuel : Nat) (hf : findById s eId = some e)
    (hc : isChainUpTo s eId L = true) (hlen : L.length ≤ 20)
    (hfuel : L.length < fuel) :
    ∃ p, getEmployeePath s fuel eId = some p
      ∧ p.map EmployeePath.id = (getAncestors s eId).reverse ++ [eId]
      ∧ (p.map EmployeePath.id).getLast? = some eId := by
  obtain ⟨p, hp, hmap⟩ := getEmployeePathAux_of_chain s L eId e fuel [] hc hf hfuel
  have hanc : getAncestors s eId = L := getAncestors_eq_of_chain s eId L hc hlen
  refine ⟨p, by simp [getEmployeePath, hf, hp], ?_, ?_⟩
  · rw [hmap, hanc]
    simp
  · rw [hmap]
    simp

/-- C8 amended, witness: in the chain store the breadcrumb for
employee 4 is the reversed ancestor walk with 4 appended. -/
theorem getEmployeePath_matches_ancestors_witness :
    (getEmployeePath chainStore 10 4).map (List.map EmployeePath.id) =
      some ((getAncestors chainStore 4).reverse ++ [4]) := by
  obtain ⟨p, hp, hmap, _⟩ :=
    getEmployeePath_matches_ancestors chainStore 4
      (mkEmp 4 "Senior Engineer" EmployeeLevel.L4 dTech (some 3)) [3, 2, 1] 10
      rfl (by decide) (by decide) (by decide)
  simp [hp, hmap]

/-- C8 counterexample: the claim quantifies over every acyclic
hierarchy, but getAncestors truncates at 20 hops while the breadcrumb
loop walks the whole chain; on the 22-deep chain the reconstructed path
ids differ from ancestorsOf reversed plus the employee. -/
theorem getEmployeePath_deep_mismatch :
    (getEmployeePath deepStore 30 22).map (List.map EmployeePath.id) ≠
      some ((getAncestors deepStore 22).reverse ++ [22]) := by
  decide

/-- A successful updateManager run performs exactly the DAO single-field
manager write. -/
theorem updateManager_ok {s : Store} {eId : Nat} {mId : Option Nat} {s' : Store}
    (h : updateManager s eId mId = Except.ok s') :
    s' = setManagerField s eId mId := by
  unfold updateManager at h
  repeat' split at h
  all_goals simp_all

/-- A successful deleteEmployee run performs exactly the DAO deletion. -/
theorem deleteEmployee_ok {s : Store} {i : Nat} {s' : Store}
    (h : deleteEmployee s i = Except.ok s') : s' = destroyById s i := by
  unfold deleteEmployee at h
  repeat' split at h
  all_goals simp_all

/-- Point lookups after the manager write see the same record with only
the managerId field possibly replaced. -/
theorem findById_setManagerField (s : Store) (i j : Nat) (mgr : Option Nat) :
    findById (setManagerField s i mgr) j =
      (findById s j).map
        (fun e => if e.id = i then { e with managerId := mgr } else e) := by
  unfold findById setManagerField
  rw [List.find?_map]
  have hp : ((fun e : Employee => decide (e.id = j)) ∘ fun e =>
      if e.id = i then { e with managerId := mgr } else e) =
      (fun e : Employee => decide (e.id = j)) := by
    funext e
    by_cases h : e.id = i <;> simp [h, Function.comp]
  rw [hp]

/-- Deleting one id leaves lookups of every other id unchanged. -/
theorem findById_destroyById (s : Store) (i j : Nat) (hne : j ≠ i) :
    findById (destroyById s i) j = findById s j := by
  induction s with
  | nil => rfl
  | cons a t ih =>
    have hij : i ≠ j := fun h => hne h.symm
    by_cases hai : a.id = i
    · have haj : ¬a.id = j := fun h => hij (hai ▸ h)
      simpa [findById, destroyById, List.filter_cons, List.find?_cons, hai, haj, hij]
        using ih
    · by_cases haj : a.id = j
      · simp [findById, destroyById, List.filter_cons, List.find?_cons,
          hai, haj, hne]
      · simpa [findById, destroyById, List.filter_cons, List.find?_cons,
          hai, haj, hij, hne] using ih

/-- One core operation that is not a deletion of the observed employee
keeps that employee present with an unchanged designation. -/
theorem applyOp_preserves_designation (s : Store) (op : CoreOp) (eId : Nat)
    (e : Employee) (he : findById s eId = some e)
    (hdel : ∀ i, op = CoreOp.delete i → i ≠ eId) :
    ∃ e', findById (applyOp s op) eId = some e'
      ∧ e'.designation = e.designation := by
  cases op with
  | reassign a b =>
    cases h : updateManager s a b with
    | error msg => exact ⟨e, by simp [applyOp, h, he], rfl⟩
    | ok s' =>
      have hs' := updateManager_ok h
      refine ⟨if e.id = a then { e with managerId := b } else e, ?_, ?_⟩
      · simp [applyOp, h, hs', findById_setManagerField, he]
      · split <;> rfl
  | delete i =>
    have hne : i ≠ eId := hdel i rfl
    cases h : deleteEmployee s i with
    | error msg => exact ⟨e, by simp [applyOp, h, he], rfl⟩
    | ok s' =>
      have hs' := deleteEmployee_ok h
      refine ⟨e, ?_, rfl⟩
      rw [show applyOp s (CoreOp.delete i) = s' by simp [applyOp, h], hs',
        findById_destroyById s i eId (fun hh => hne hh.symm)]
      exact he

/-- Any sequence of reassignments and deletions of other employees
keeps the observed employee present with an unchanged designation. -/
theorem applyOps_preserves_designation (ops : List CoreOp) :
    ∀ (s : Store) (eId : Nat) (e : Employee), findById s eId = some e →
      (∀ i, CoreOp.delete i ∈ ops → i ≠ eId) →
      ∃ e', findById (applyOps s ops) eId = some e'
        ∧ e'.designation = e.designation := by
  induction ops with
  | nil =>
    intro s eId e he _
    exact ⟨e, by simpa [applyOps] using he, rfl⟩
  | cons op rest ih =>
    intro s eId e he hdel
    obtain ⟨e1, he1, hd1⟩ := applyOp_preserves_designation s op eId e he
      (fun i hop => hdel i (by simp [hop]))
    obtain ⟨e', he', hd'⟩ := ih (applyOp s op) eId e1 he1
      (fun i hmem => hdel i (by simp [hmem]))
    exact ⟨e', by simpa [applyOps] using he', hd'.trans hd1⟩

/-- C4: no sequence of core operations — reassignments, deletions of
other employees, reads — ever changes the level or department derived
from an existing employee's designation: the employee is still found
afterward and both derived values agree with creation time. -/
theorem applyOps_never_mutates_level_or_department (s : Store) (ops : List CoreOp)
    (eId : Nat) (e : Employee) (he : findById s eId = some e)
    (hdel : ∀ i, CoreOp.delete i ∈ ops → i ≠ eId) :
    ∃ e', findById (applyOps s ops) eId = some e'
      ∧ e'.designation.map Designation.level = e.designation.map Designation.level
      ∧ e'.designation.bind Designation.department =
          e.designation.bind Designation.department := by
  obtain ⟨e', he', hd⟩ := applyOps_preserves_designation ops s eId e he hdel
  exact ⟨e', he', by rw [hd], by rw [hd]⟩

/-- C4 witness: after a reassignment, a deletion of employee 4 and a
rejected reassignment in the chain store, employee 3 still carries
level L3. -/
theorem applyOps_never_mutates_level_witness :
    (findById
        (applyOps chainStore
          [CoreOp.reassign 3 (some 1), CoreOp.delete 4, CoreOp.reassign 1 (some 2)])
        3).map (fun x => x.designation.map Designation.level) =
      some (some EmployeeLevel.L3) := by
  obtain ⟨e', he', hl, _⟩ :=
    applyOps_never_mutates_level_or_department chainStore
      [CoreOp.reassign 3 (some 1), CoreOp.delete 4, CoreOp.reassign 1 (some 2)] 3
      (mkEmp 3 "Team Lead" EmployeeLevel.L3 dTech (some 2)) rfl
      (by
        intro i h
        simp only [List.mem_cons, List.not_mem_nil, or_false] at h
        rcases h with h | h | h <;> simp_all)
  rw [he']
  simp [hl, mkEmp]

/-- Bumping a counter key adds exactly one to the summed counts. -/
theorem sumCounts_bump (m : List (String × Nat)) (k : String) :
    sumCounts (bump m k) = sumCounts m + 1 := by
  induction m with
  | nil => rfl
  | cons p t ih =>
    obtain ⟨k', v⟩ := p
    by_cases h : k' = k
    · simp [bump, h, sumCounts]
      omega
    · simp [bump, h, sumCounts] at ih ⊢
      omega

/-- One forEach step of the stats scan: the total is untouched, exactly
one of active or inactive is incremented, and the department counters
gain at most one. -/
theorem statsStep_invariants (st : Stats) (e : Employee) :
    (statsStep st e).total = st.total
    ∧ (statsStep st e).active + (statsStep st e).inactive
        = st.active + st.inactive + 1
    ∧ sumCounts (statsStep st e).byDepartment ≤ sumCounts st.byDepartment + 1 := by
  unfold statsStep
  cases hdes : e.designation with
  | none =>
    by_cases hst : e.status = "active" <;> simp [hst] <;> omega
  | some d =>
    cases hdep : d.department with
    | none =>
      by_cases hst : e.status = "active" <;> simp [hdep, hst] <;> omega
    | some dep =>
      by_cases hst : e.status = "active" <;> simp [hdep, hst, sumCounts_bump] <;>
        omega

/-- Folding the stats step over a list preserves the total, adds the
list length to active plus inactive, and adds at most the list length
to the summed department counters. -/
theorem foldl_statsStep (l : List Employee) :
    ∀ st : Stats,
      (List.foldl statsStep st l).total = st.total
      ∧ (List.foldl statsStep st l).active + (List.foldl statsStep st l).inactive
          = st.active + st.inactive + l.length
      ∧ sumCounts (List.foldl statsStep st l).byDepartment
          ≤ sumCounts st.byDepartment + l.length := by
  induction l with
  | nil =>
    intro st
    simp
  | cons a t ih =>
    intro st
    obtain ⟨h1, h2, h3⟩ := statsStep_invariants st a
    obtain ⟨g1, g2, g3⟩ := ih (statsStep st a)
    refine ⟨?_, ?_, ?_⟩
    · simpa [List.foldl_cons, g1] using h1
    · simp only [List.foldl_cons, List.length_cons]
      omega
    · simp only [List.foldl_cons, List.length_cons]
      omega

/-- C10: for every employee list the summary satisfies
active + inactive = total (each employee counted exactly once, any
status other than "active" landing in inactive) while the by-department
counts sum to at most total, because employees without a resolvable
department are skipped in that breakdown. -/
theorem getEmployeeStats_consistent (s : Store) :
    (getEmployeeStats s).active + (getEmployeeStats s).inactive
        = (getEmployeeStats s).total
    ∧ sumCounts (getEmployeeStats s).byDepartment ≤ (getEmployeeStats s).total := by
  obtain ⟨h1, h2, h3⟩ := foldl_statsStep s
    { total := s.length, byDepartment := [], byLevel := [], active := 0, inactive := 0 }
  unfold getEmployeeStats
  constructor
  · rw [h2, h1]
    simp
  · rw [h1]
    simpa [sumCounts] using h3

end EmpChart
